import Mathlib

/-!
Verification development for the tcplb TCP load balancer core.

Each Go component relevant to the checked properties is shallowly embedded:
Go maps become association lists (`List (K × V)`) with Go's zero-value
lookup semantics, mutexed methods become pure state-transition functions
(every method body runs under its receiver's mutex, so one call is one
atomic transition), `panic` becomes an explicit outcome constructor, and
machine integers become `Int`/`Nat` with explicit wrap points where the
source width matters.
-/

set_option maxHeartbeats 1000000

namespace Tcplb

/-! ## Core data model (src/lib/core) -/

/-- Upstream (src/unnamed/part_004): a network tag plus an address string. -/
structure Upstream where
  network : String
  address : String
deriving DecidableEq, Repr

/-- ClientID (src/lib/core/clientid.go): namespace plus opaque key. -/
structure ClientID where
  ns : String
  key : String
deriving DecidableEq, Repr

/-! ## Go map primitives

Go maps are embedded as association lists. `goFind?` is comma-ok lookup,
`goGetInt` is lookup returning the zero value `0` for absent keys,
`goInsert` is `m[k] = v`, and `goErase` is `delete(m, k)`. -/

def goFind? {K V : Type} [DecidableEq K] : List (K × V) → K → Option V
  | [], _ => none
  | (k', v) :: rest, k => if k = k' then some v else goFind? rest k

def goGetInt {K : Type} [DecidableEq K] (m : List (K × Int)) (k : K) : Int :=
  (goFind? m k).getD 0

def goInsert {K V : Type} [DecidableEq K] : List (K × V) → K → V → List (K × V)
  | [], k, v => [(k, v)]
  | (k', v') :: rest, k, v =>
    if k = k' then (k, v) :: rest else (k', v') :: goInsert rest k v

def goErase {K V : Type} [DecidableEq K] : List (K × V) → K → List (K × V)
  | [], _ => []
  | (k', v') :: rest, k =>
    if k = k' then goErase rest k else (k', v') :: goErase rest k

theorem mem_goInsert {K V : Type} [DecidableEq K] {m : List (K × V)} {k : K} {v : V}
    {p : K × V} (hp : p ∈ goInsert m k v) : p = (k, v) ∨ p ∈ m := by
  induction m with
  | nil =>
    simp [goInsert] at hp
    exact Or.inl hp
  | cons hd tl ih =>
    obtain ⟨k', v'⟩ := hd
    by_cases hk : k = k'
    · subst hk
      simp [goInsert] at hp
      rcases hp with h | h
      · exact Or.inl (by simp [h])
      · exact Or.inr (List.mem_cons_of_mem _ h)
    · simp [goInsert, hk] at hp
      rcases hp with h | h
      · exact Or.inr (by simp [h])
      · rcases ih h with h' | h'
        · exact Or.inl h'
        · exact Or.inr (List.mem_cons_of_mem _ h')

theorem mem_goErase {K V : Type} [DecidableEq K] {m : List (K × V)} {k : K}
    {p : K × V} (hp : p ∈ goErase m k) : p ∈ m ∧ p.1 ≠ k := by
  induction m with
  | nil => simp [goErase] at hp
  | cons hd tl ih =>
    obtain ⟨k', v'⟩ := hd
    by_cases hk : k = k'
    · subst hk
      simp [goErase] at hp
      obtain ⟨h1, h2⟩ := ih hp
      exact ⟨List.mem_cons_of_mem _ h1, h2⟩
    · simp [goErase, hk] at hp
      rcases hp with h | h
      · refine ⟨by simp [h], ?_⟩
        simp [h]
        intro hck
        exact hk hck.symm
      · obtain ⟨h1, h2⟩ := ih h
        exact ⟨List.mem_cons_of_mem _ h1, h2⟩

theorem goFind?_mem {K V : Type} [DecidableEq K] {m : List (K × V)} {k : K} {v : V}
    (h : goFind? m k = some v) : (k, v) ∈ m := by
  induction m with
  | nil => simp [goFind?] at h
  | cons hd tl ih =>
    obtain ⟨k', v'⟩ := hd
    by_cases hk : k = k'
    · simp [goFind?, hk] at h
      simp [hk, h]
    · simp [goFind?, hk] at h
      exact List.mem_cons_of_mem _ (ih h)

/-! ## Client reserver (src/lib/limiter/reservation.go, ClientID-keyed version)

The reserver's mutex serializes `TryReserve` and `ReleaseReservation`, so
each call is one atomic transition on the reservation table. The
`sanityCheck` panic is made explicit as the `panicked` outcome, carrying
the table contents at the moment of the panic (the map write has already
happened when the post-write check fires). -/

structure UniformlyBoundedClientReserver where
  MaxReservationsPerClient : Int
  resByClient : List (ClientID × Int)
deriving DecidableEq, Repr

/-- Outcome of one reserver method call: `ok` (nil error), the
`MaxReservationsExceeded` error, or a `sanityCheck` panic. -/
inductive LimiterOutcome
  | ok (b : UniformlyBoundedClientReserver)
  | maxReservationsExceeded (b : UniformlyBoundedClientReserver)
  | panicked (b : UniformlyBoundedClientReserver)
deriving DecidableEq, Repr

/-- NewUniformlyBoundedClientReserver: empty table. -/
def newUniformlyBoundedClientReserver (maxPerClient : Int) : UniformlyBoundedClientReserver :=
  { MaxReservationsPerClient := maxPerClient, resByClient := [] }

/-- TryReserve. The source calls `sanityCheck(n)` on the pre-read count,
writes `n+1`, then calls `sanityCheck(n)` again on the same (old) `n`. -/
def tryReserve (b : UniformlyBoundedClientReserver) (c : ClientID) : LimiterOutcome :=
  let n := goGetInt b.resByClient c
  if n < 0 ∨ n > b.MaxReservationsPerClient then .panicked b
  else if n ≥ b.MaxReservationsPerClient then .maxReservationsExceeded b
  else
    let b' := { b with resByClient := goInsert b.resByClient c (n + 1) }
    if n < 0 ∨ n > b.MaxReservationsPerClient then .panicked b' else .ok b'

/-- ReleaseReservation: reads the count (zero value when absent),
sanity-checks it, decrements, writes the decremented count back, deletes
the entry when it reached zero, then sanity-checks the new count — a
negative count panics at this second check. -/
def releaseReservation (b : UniformlyBoundedClientReserver) (c : ClientID) : LimiterOutcome :=
  let n := goGetInt b.resByClient c
  if n < 0 ∨ n > b.MaxReservationsPerClient then .panicked b
  else
    let n1 := n - 1
    let m1 := goInsert b.resByClient c n1
    let m2 := if n1 = 0 then goErase m1 c else m1
    let b' := { b with resByClient := m2 }
    if n1 < 0 ∨ n1 > b.MaxReservationsPerClient then .panicked b' else .ok b'

/-- One serialized reserver call. -/
inductive ReserverOp
  | tryRes (c : ClientID)
  | release (c : ClientID)
deriving DecidableEq, Repr

def reserverStep (b : UniformlyBoundedClientReserver) : ReserverOp → LimiterOutcome
  | .tryRes c => tryReserve b c
  | .release c => releaseReservation b c

/-- Run a sequence of reserver calls; `none` when some call panicked
(the process died before the remaining calls could be issued). -/
def runReserverOps (b : UniformlyBoundedClientReserver) :
    List ReserverOp → Option UniformlyBoundedClientReserver
  | [] => some b
  | op :: rest =>
    match reserverStep b op with
    | .ok b' => runReserverOps b' rest
    | .maxReservationsExceeded b' => runReserverOps b' rest
    | .panicked _ => none

/-- Strengthened reachability invariant for the reservation table:
every stored count lies in [1, max]. -/
def reservationTableWF (max : Int) (m : List (ClientID × Int)) : Prop :=
  ∀ p ∈ m, 1 ≤ p.2 ∧ p.2 ≤ max

theorem goFind?_none_iff_getInt_zero {m : List (ClientID × Int)}
    (hm : ∀ p ∈ m, p.2 ≠ 0) (c : ClientID) :
    goFind? m c = none ↔ goGetInt m c = 0 := by
  cases h : goFind? m c with
  | none => simp [goGetInt, h]
  | some v =>
    have hv : v ≠ 0 := hm (c, v) (goFind?_mem h)
    simp [goGetInt, h, hv]

theorem tryReserve_preserves {b : UniformlyBoundedClientReserver} {c : ClientID}
    {b' : UniformlyBoundedClientReserver}
    (hWF : reservationTableWF b.MaxReservationsPerClient b.resByClient)
    (h : tryReserve b c = .ok b' ∨ tryReserve b c = .maxReservationsExceeded b') :
    b'.MaxReservationsPerClient = b.MaxReservationsPerClient ∧
      reservationTableWF b.MaxReservationsPerClient b'.resByClient := by
  rcases h with h | h
  · simp only [tryReserve] at h
    split_ifs at h with h1 h2
    simp only [LimiterOutcome.ok.injEq] at h
    subst h
    refine ⟨rfl, ?_⟩
    intro p hp
    rcases mem_goInsert hp with hpc | hpm
    · rw [hpc]
      refine ⟨?_, ?_⟩ <;> simp only <;> omega
    · exact hWF p hpm
  · simp only [tryReserve] at h
    split_ifs at h with h1 h2
    simp only [LimiterOutcome.maxReservationsExceeded.injEq] at h
    subst h
    exact ⟨rfl, hWF⟩

theorem releaseReservation_preserves {b : UniformlyBoundedClientReserver} {c : ClientID}
    {b' : UniformlyBoundedClientReserver}
    (hWF : reservationTableWF b.MaxReservationsPerClient b.resByClient)
    (h : releaseReservation b c = .ok b' ∨
         releaseReservation b c = .maxReservationsExceeded b') :
    b'.MaxReservationsPerClient = b.MaxReservationsPerClient ∧
      reservationTableWF b.MaxReservationsPerClient b'.resByClient := by
  rcases h with h | h
  · simp only [releaseReservation] at h
    split_ifs at h with h1 h2 h3
    · simp only [LimiterOutcome.ok.injEq] at h
      subst h
      refine ⟨rfl, ?_⟩
      intro p hp
      obtain ⟨hp1, hp2⟩ := mem_goErase hp
      rcases mem_goInsert hp1 with hpc | hpm
      · exact absurd (by rw [hpc]) hp2
      · exact hWF p hpm
    · simp only [LimiterOutcome.ok.injEq] at h
      subst h
      refine ⟨rfl, ?_⟩
      intro p hp
      rcases mem_goInsert hp with hpc | hpm
      · rw [hpc]
        refine ⟨?_, ?_⟩ <;> simp only <;> omega
      · exact hWF p hpm
  · simp only [releaseReservation] at h
    split_ifs at h

theorem runReserverOps_preserves :
    ∀ (ops : List ReserverOp) (b b' : UniformlyBoundedClientReserver),
    reservationTableWF b.MaxReservationsPerClient b.resByClient →
    runReserverOps b ops = some b' →
    b'.MaxReservationsPerClient = b.MaxReservationsPerClient ∧
      reservationTableWF b.MaxReservationsPerClient b'.resByClient := by
  intro ops
  induction ops with
  | nil =>
    intro b b' hWF hrun
    simp [runReserverOps] at hrun
    subst hrun
    exact ⟨rfl, hWF⟩
  | cons op rest ih =>
    intro b b' hWF hrun
    simp only [runReserverOps] at hrun
    cases hstep : reserverStep b op with
    | ok b1 =>
      rw [hstep] at hrun
      have hpres : b1.MaxReservationsPerClient = b.MaxReservationsPerClient ∧
          reservationTableWF b.MaxReservationsPerClient b1.resByClient := by
        cases op with
        | tryRes c => exact tryReserve_preserves hWF (Or.inl hstep)
        | release c => exact releaseReservation_preserves hWF (Or.inl hstep)
      obtain ⟨hmax1, hWF1⟩ := hpres
      have := ih b1 b' (by rw [hmax1]; exact hWF1) hrun
      rw [hmax1] at this
      exact this
    | maxReservationsExceeded b1 =>
      rw [hstep] at hrun
      have hpres : b1.MaxReservationsPerClient = b.MaxReservationsPerClient ∧
          reservationTableWF b.MaxReservationsPerClient b1.resByClient := by
        cases op with
        | tryRes c => exact tryReserve_preserves hWF (Or.inr hstep)
        | release c => exact releaseReservation_preserves hWF (Or.inr hstep)
      obtain ⟨hmax1, hWF1⟩ := hpres
      have := ih b1 b' (by rw [hmax1]; exact hWF1) hrun
      rw [hmax1] at this
      exact this
    | panicked b1 =>
      rw [hstep] at hrun
      exact absurd hrun (by simp)

/-- C9: for every sequence of TryReserve/Release calls on a
uniformly-bounded reserver with MaxPerClient ≥ 1, started from the empty
table, in which every call completes (returns rather than panics), the
reservation table satisfies at every instant: every stored count lies in
[0, MaxPerClient], a ClientID is absent from the table iff its count is
0, and no entry with count 0 remains after any completed Release (no
entry with count 0 exists at all). Instants are states between the
serialized (mutex-protected) calls; quantifying over all `ops` covers
every prefix of every longer run. -/
theorem reserver_table_invariant (max : Int) (ops : List ReserverOp)
    (b' : UniformlyBoundedClientReserver) (_hmax : 1 ≤ max)
    (hrun : runReserverOps (newUniformlyBoundedClientReserver max) ops = some b') :
    (∀ p ∈ b'.resByClient, 0 ≤ p.2 ∧ p.2 ≤ max) ∧
    (∀ c : ClientID, goFind? b'.resByClient c = none ↔ goGetInt b'.resByClient c = 0) ∧
    (∀ p ∈ b'.resByClient, p.2 ≠ 0) := by
  have hWF0 : reservationTableWF max (newUniformlyBoundedClientReserver max).resByClient := by
    intro p hp
    simp [newUniformlyBoundedClientReserver] at hp
  obtain ⟨hmaxeq, hWF⟩ := runReserverOps_preserves ops _ b' hWF0 hrun
  refine ⟨?_, ?_, ?_⟩
  · intro p hp
    obtain ⟨h1, h2⟩ := hWF p hp
    exact ⟨by omega, h2⟩
  · exact goFind?_none_iff_getInt_zero (fun p hp => by
      obtain ⟨h1, _⟩ := hWF p hp
      omega)
  · intro p hp
    obtain ⟨h1, _⟩ := hWF p hp
    omega

theorem reserver_table_invariant_witness :
    (1 : Int) ≤ 2 ∧
    runReserverOps (newUniformlyBoundedClientReserver 2)
      [ReserverOp.tryRes ⟨"CommonName", "alice"⟩, ReserverOp.release ⟨"CommonName", "alice"⟩]
      = some (newUniformlyBoundedClientReserver 2) ∧
    (∀ p ∈ (newUniformlyBoundedClientReserver 2).resByClient, 0 ≤ p.2 ∧ p.2 ≤ 2) :=
  ⟨by decide, by decide,
    (reserver_table_invariant 2
      [ReserverOp.tryRes ⟨"CommonName", "alice"⟩, ReserverOp.release ⟨"CommonName", "alice"⟩]
      (newUniformlyBoundedClientReserver 2) (by decide) (by decide)).1⟩

/-- C3: the claim says ReleaseReservation with no reservation held returns
a NoReservation error and neither succeeds silently nor crashes. The code
instead writes count −1 into the table and then panics in `sanityCheck`:
evaluating ReleaseReservation for a client absent from the table yields
the panic outcome, with the −1 entry present at the moment of the panic.
No NoReservation error value exists in the implementation, although the
repository's own test requires `ErrorIs(err, NoReservationExists)`. -/
theorem release_without_reservation_panics :
    releaseReservation (newUniformlyBoundedClientReserver 1) ⟨"CommonName", "alice"⟩
      = .panicked { MaxReservationsPerClient := 1,
                    resByClient := [(⟨"CommonName", "alice"⟩, -1)] } := by
  decide

/-! ## Least-connections dial policy (src/lib/dialer/policies.go)

The policy's mutex serializes its methods; each is one atomic transition
on the connectionCount map. `ChooseBestUpstream` iterates over the
candidate UpstreamSet in Go-map iteration order, which is arbitrary; the
embedding takes the candidates as a list and the theorems quantify over
every enumeration order. -/

/-- math.MaxInt64, the initial `minCount` sentinel. -/
def maxInt64 : Int := 9223372036854775807

structure LeastConnectionDialPolicy where
  connectionCount : List (Upstream × Int)
deriving DecidableEq, Repr

def newLeastConnectionDialPolicy : LeastConnectionDialPolicy :=
  { connectionCount := [] }

/-- Errors of package dialer, plus dial/context errors seen by RetryDialer. -/
inductive GoErr
  | noCandidateUpstreams
  | deadlineExceeded
  | cancelled
  | errMsg (s : String)
deriving DecidableEq, Repr

/-- Go's zero value `core.Upstream{}`. -/
def zeroUpstream : Upstream := { network := "", address := "" }

/-- The scan loop of ChooseBestUpstream: `if count < minCount` updates
(minCount, argMin). -/
def chooseScan (counts : List (Upstream × Int)) :
    List Upstream → Int → Upstream → Int × Upstream
  | [], minCount, argMin => (minCount, argMin)
  | u :: rest, minCount, argMin =>
    let count := goGetInt counts u
    if count < minCount then chooseScan counts rest count u
    else chooseScan counts rest minCount argMin

/-- ChooseBestUpstream: scan starting from the sentinel minCount =
math.MaxInt64 and the zero Upstream; report NoCandidateUpstreams iff the
final minCount still equals the sentinel. -/
def chooseBestUpstream (p : LeastConnectionDialPolicy) (candidates : List Upstream) :
    Upstream × Option GoErr :=
  let r := chooseScan p.connectionCount candidates maxInt64 zeroUpstream
  (r.2, if r.1 = maxInt64 then some .noCandidateUpstreams else none)

/-- Two's-complement wrap of int64 arithmetic. -/
def wrap64 (x : Int) : Int := (x + 2 ^ 63) % 2 ^ 64 - 2 ^ 63

/-- DialSucceeded: `connectionCount[upstream]++`. -/
def dialSucceeded (p : LeastConnectionDialPolicy) (u : Upstream) : LeastConnectionDialPolicy :=
  { connectionCount := goInsert p.connectionCount u (wrap64 (goGetInt p.connectionCount u + 1)) }

/-- DialFailed: no-op on the count. -/
def dialFailed (p : LeastConnectionDialPolicy) (_u : Upstream) (_symptom : GoErr) :
    LeastConnectionDialPolicy := p

/-- ConnectionClosed: `connectionCount[upstream]--`. -/
def connectionClosed (p : LeastConnectionDialPolicy) (u : Upstream) : LeastConnectionDialPolicy :=
  { connectionCount := goInsert p.connectionCount u (wrap64 (goGetInt p.connectionCount u - 1)) }

theorem chooseScan_fst_le (counts : List (Upstream × Int)) :
    ∀ (cands : List Upstream) (mc : Int) (am : Upstream),
      (chooseScan counts cands mc am).1 ≤ mc := by
  intro cands
  induction cands with
  | nil => intro mc am; simp [chooseScan]
  | cons u rest ih =>
    intro mc am
    simp only [chooseScan]
    split_ifs with hlt
    · exact le_trans (ih _ _) (le_of_lt hlt)
    · exact ih _ _

theorem chooseScan_min (counts : List (Upstream × Int)) :
    ∀ (cands : List Upstream) (mc : Int) (am : Upstream),
      ∀ u ∈ cands, (chooseScan counts cands mc am).1 ≤ goGetInt counts u := by
  intro cands
  induction cands with
  | nil => intro mc am u hu; simp at hu
  | cons v rest ih =>
    intro mc am u hu
    rcases List.mem_cons.mp hu with hv | hrest
    · subst hv
      simp only [chooseScan]
      split_ifs with hlt
      · exact chooseScan_fst_le counts rest _ _
      · exact le_trans (chooseScan_fst_le counts rest _ _) (not_lt.mp hlt)
    · simp only [chooseScan]
      split_ifs with hlt
      · exact ih _ _ u hrest
      · exact ih _ _ u hrest

theorem chooseScan_achieves (counts : List (Upstream × Int)) :
    ∀ (cands : List Upstream) (mc : Int) (am : Upstream),
      ((chooseScan counts cands mc am).1 = mc ∧ (chooseScan counts cands mc am).2 = am) ∨
      ((chooseScan counts cands mc am).2 ∈ cands ∧
        goGetInt counts (chooseScan counts cands mc am).2 = (chooseScan counts cands mc am).1) := by
  intro cands
  induction cands with
  | nil => intro mc am; exact Or.inl ⟨rfl, rfl⟩
  | cons v rest ih =>
    intro mc am
    simp only [chooseScan]
    split_ifs with hlt
    · rcases ih (goGetInt counts v) v with ⟨h1, h2⟩ | ⟨h1, h2⟩
      · exact Or.inr ⟨by rw [h2]; exact List.mem_cons_self v rest, by rw [h1, h2]⟩
      · exact Or.inr ⟨List.mem_cons_of_mem v h1, h2⟩
    · rcases ih mc am with ⟨h1, h2⟩ | ⟨h1, h2⟩
      · exact Or.inl ⟨h1, h2⟩
      · exact Or.inr ⟨List.mem_cons_of_mem v h1, h2⟩

/-- C6 (amended): ChooseBestUpstream returns NoCandidateUpstreams for the
empty candidate set; and for every candidate set containing at least one
upstream whose connection count is below the int64 sentinel
math.MaxInt64, it returns — in every Go-map iteration order — a member
of the candidate set whose count (absent keys counting 0) is minimal
among the candidates, with nil error. (When every candidate's count
equals math.MaxInt64, the sentinel makes the code return the zero
Upstream and NoCandidateUpstreams instead; see the counterexample.) -/
theorem chooseBestUpstream_empty_err_and_nonempty_min (p : LeastConnectionDialPolicy)
    (candidates : List Upstream)
    (hbelow : ∃ u ∈ candidates, goGetInt p.connectionCount u < maxInt64) :
    (chooseBestUpstream p [] = (zeroUpstream, some .noCandidateUpstreams)) ∧
    (chooseBestUpstream p candidates).2 = none ∧
    (chooseBestUpstream p candidates).1 ∈ candidates ∧
    (∀ v ∈ candidates,
      goGetInt p.connectionCount (chooseBestUpstream p candidates).1 ≤
        goGetInt p.connectionCount v) := by
  obtain ⟨u, hu, hulow⟩ := hbelow
  have hlt : (chooseScan p.connectionCount candidates maxInt64 zeroUpstream).1 < maxInt64 :=
    lt_of_le_of_lt (chooseScan_min p.connectionCount candidates maxInt64 zeroUpstream u hu) hulow
  have hach := chooseScan_achieves p.connectionCount candidates maxInt64 zeroUpstream
  rcases hach with ⟨h1, _⟩ | ⟨h1, h2⟩
  · rw [h1] at hlt
    exact absurd hlt (lt_irrefl _)
  · refine ⟨rfl, ?_, ?_, ?_⟩
    · simp only [chooseBestUpstream]
      rw [if_neg (ne_of_lt hlt)]
    · simpa only [chooseBestUpstream] using h1
    · intro v hv
      simp only [chooseBestUpstream]
      rw [h2]
      exact chooseScan_min p.connectionCount candidates maxInt64 zeroUpstream v hv

theorem chooseBestUpstream_empty_err_and_nonempty_min_witness :
    (∃ u ∈ [Upstream.mk "tcp" "a", Upstream.mk "tcp" "b"],
      goGetInt (newLeastConnectionDialPolicy).connectionCount u < maxInt64) ∧
    (chooseBestUpstream newLeastConnectionDialPolicy
        [Upstream.mk "tcp" "a", Upstream.mk "tcp" "b"]).1
      ∈ [Upstream.mk "tcp" "a", Upstream.mk "tcp" "b"] :=
  ⟨⟨Upstream.mk "tcp" "a", by decide⟩,
    (chooseBestUpstream_empty_err_and_nonempty_min newLeastConnectionDialPolicy
      [Upstream.mk "tcp" "a", Upstream.mk "tcp" "b"]
      ⟨Upstream.mk "tcp" "a", by decide⟩).2.2.1⟩

/-- C6 counterexample: with the single candidate ("tcp","a") whose
connection count is math.MaxInt64, ChooseBestUpstream returns the zero
Upstream — not a member of the candidate set — together with the
NoCandidateUpstreams error, although the candidate set is non-empty. -/
theorem chooseBestUpstream_sentinel_counterexample :
    chooseBestUpstream { connectionCount := [(Upstream.mk "tcp" "a", maxInt64)] }
        [Upstream.mk "tcp" "a"]
      = (zeroUpstream, some .noCandidateUpstreams) ∧
    zeroUpstream ∉ [Upstream.mk "tcp" "a"] := by
  decide

/-! ## Retry dialer (src/unnamed/part_006, RetryDialer.DialBestUpstream)

The loop body interacts with two collaborators: the DialPolicy (choice)
and the inner UpstreamDialer (dial outcome, plus the value `dialCtx.Err()`
observed when the dial fails). One loop iteration's collaborator
behaviour is a `RetryIter`; a run consumes a script of iterations. The
calls the dialer makes on the policy and the inner dialer are recorded as
`DialEvent`s, in program order. -/

instance : DecidableEq (Except GoErr Upstream) := fun a b =>
  match a, b with
  | .ok u, .ok v =>
    if h : u = v then .isTrue (by rw [h]) else .isFalse (by intro hc; cases hc; exact h rfl)
  | .error e, .error f =>
    if h : e = f then .isTrue (by rw [h]) else .isFalse (by intro hc; cases hc; exact h rfl)
  | .ok _, .error _ => .isFalse (by intro hc; cases hc)
  | .error _, .ok _ => .isFalse (by intro hc; cases hc)

structure RetryIter where
  choice : Except GoErr Upstream
  dialErr : Option GoErr
  ctxErr : Option GoErr
deriving DecidableEq, Repr

inductive DialEvent
  | chooseBest
  | dialAttempt (u : Upstream)
  | dialFailed (u : Upstream) (symptom : GoErr)
  | dialSucceeded (u : Upstream)
deriving DecidableEq, Repr

/-- The `for` loop of DialBestUpstream. Result `none` means the script
ended while the loop still wanted another iteration. -/
def retryLoop : List RetryIter → Option (Except GoErr Upstream) × List DialEvent
  | [] => (none, [])
  | it :: rest =>
    match it.choice with
    | .error e => (some (.error e), [.chooseBest])
    | .ok u =>
      match it.dialErr with
      | none => (some (.ok u), [.chooseBest, .dialAttempt u, .dialSucceeded u])
      | some _e =>
        match it.ctxErr with
        | some ce => (some (.error ce), [.chooseBest, .dialAttempt u])
        | none =>
          match it.dialErr with
          | some e =>
            let r := retryLoop rest
            (r.1, .chooseBest :: .dialAttempt u :: .dialFailed u e :: r.2)
          | none => (none, [])

/-- DialBestUpstream: empty candidates fail immediately with
NoCandidateUpstreams, before any policy or dialer call; otherwise run the
retry loop. -/
def dialBestUpstream (candidates : List Upstream) (script : List RetryIter) :
    Option (Except GoErr Upstream) × List DialEvent :=
  if candidates = [] then (some (.error .noCandidateUpstreams), [])
  else retryLoop script

/-- An iteration in which the policy chose an upstream, the dial failed,
and the overall dial deadline had not expired: the dialer reports
DialFailed and loops. -/
def retryableFail (it : RetryIter) : Prop :=
  (∃ u, it.choice = .ok u) ∧ (∃ e, it.dialErr = some e) ∧ it.ctxErr = none

/-- The events one retryable failed iteration contributes. -/
def failEvents (it : RetryIter) : List DialEvent :=
  match it.choice, it.dialErr with
  | .ok u, some e => [.chooseBest, .dialAttempt u, .dialFailed u e]
  | _, _ => []

theorem retryLoop_skips_retryable :
    ∀ (pre rest : List RetryIter), (∀ j ∈ pre, retryableFail j) →
      retryLoop (pre ++ rest)
        = ((retryLoop rest).1, pre.flatMap failEvents ++ (retryLoop rest).2) := by
  intro pre
  induction pre with
  | nil => intro rest _; simp
  | cons j pre' ih =>
    intro rest hall
    obtain ⟨⟨u, hu⟩, ⟨e, he⟩, hctx⟩ := hall j (List.mem_cons_self j pre')
    have hrest : ∀ j' ∈ pre', retryableFail j' :=
      fun j' hj' => hall j' (List.mem_cons_of_mem j hj')
    simp only [List.cons_append, retryLoop, hu, he, hctx]
    rw [show pre'.append rest = pre' ++ rest from rfl, ih rest hrest]
    simp [failEvents, hu, he]

/-- C5: the retry protocol of RetryDialer.DialBestUpstream. (i) For the
empty candidate set it fails immediately with NoCandidateUpstreams and
makes no policy or dialer call. (ii) After any run of retryable failed
attempts, an attempt that fails when the overall dial deadline has
expired (`dialCtx.Err() = context.DeadlineExceeded`) makes the call
return DeadlineExceeded, with no DialFailed call for that attempt and no
further retries. (iii) After any run of retryable failed attempts — each
contributing exactly its ChooseBestUpstream, dial attempt, and
DialFailed(u, err) calls — the loop continues by asking the policy for
another choice. -/
theorem retryDialer_protocol :
    (∀ script, dialBestUpstream [] script = (some (.error .noCandidateUpstreams), [])) ∧
    (∀ (candidates : List Upstream) (pre : List RetryIter) (it : RetryIter)
        (rest : List RetryIter) (u : Upstream) (e : GoErr),
      candidates ≠ [] → (∀ j ∈ pre, retryableFail j) →
      it.choice = .ok u → it.dialErr = some e → it.ctxErr = some .deadlineExceeded →
      dialBestUpstream candidates (pre ++ it :: rest)
        = (some (.error .deadlineExceeded),
           pre.flatMap failEvents ++ [.chooseBest, .dialAttempt u])) ∧
    (∀ (candidates : List Upstream) (pre rest : List RetryIter),
      candidates ≠ [] → (∀ j ∈ pre, retryableFail j) →
      dialBestUpstream candidates (pre ++ rest)
        = ((retryLoop rest).1, pre.flatMap failEvents ++ (retryLoop rest).2)) := by
  refine ⟨?_, ?_, ?_⟩
  · intro script
    simp [dialBestUpstream]
  · intro candidates pre it rest u e hc hpre hu he hctx
    simp only [dialBestUpstream, if_neg hc]
    rw [retryLoop_skips_retryable pre (it :: rest) hpre]
    simp [retryLoop, hu, he, hctx]
  · intro candidates pre rest hc hpre
    simp only [dialBestUpstream, if_neg hc]
    exact retryLoop_skips_retryable pre rest hpre

theorem retryDialer_protocol_witness :
    dialBestUpstream [Upstream.mk "tcp" "good"]
        [{ choice := .ok (Upstream.mk "tcp" "bad"),
           dialErr := some (.errMsg "refused"), ctxErr := none },
         { choice := .ok (Upstream.mk "tcp" "good"),
           dialErr := some (.errMsg "slow"), ctxErr := some .deadlineExceeded }]
      = (some (.error .deadlineExceeded),
         [.chooseBest, .dialAttempt (Upstream.mk "tcp" "bad"),
          .dialFailed (Upstream.mk "tcp" "bad") (.errMsg "refused"),
          .chooseBest, .dialAttempt (Upstream.mk "tcp" "good")]) := by
  have h := retryDialer_protocol.2.1 [Upstream.mk "tcp" "good"]
    [{ choice := .ok (Upstream.mk "tcp" "bad"),
       dialErr := some (.errMsg "refused"), ctxErr := none }]
    { choice := .ok (Upstream.mk "tcp" "good"),
      dialErr := some (.errMsg "slow"), ctxErr := some .deadlineExceeded }
    [] (Upstream.mk "tcp" "good") (.errMsg "slow")
    (by decide)
    (by
      intro j hj
      simp at hj
      subst hj
      exact ⟨⟨Upstream.mk "tcp" "bad", rfl⟩, ⟨.errMsg "refused", rfl⟩, rfl⟩)
    rfl rfl rfl
  simpa [failEvents] using h

/-! ## Close-notifying connection wrapper (src/unnamed/part_006,
CloseNotifyingDuplexConn)

`Close` runs `defer c.OnClose()` around the inner Close, where OnClose is
`d.Policy.ConnectionClosed(upstream)` for the upstream chosen by the
successful DialBestUpstream. The embedding counts the caller's Close
calls and the ConnectionClosed(u) notifications delivered to the policy.
The source has no once-latch guarding OnClose. -/

structure CloseNotifyingDuplexConn where
  upstream : Upstream
  closeCalls : Nat
  notifications : Nat
deriving DecidableEq, Repr

/-- The wrapped conn handed back by a successful DialBestUpstream for
chosen upstream u: not yet closed, no notification sent. -/
def wrapConn (u : Upstream) : CloseNotifyingDuplexConn :=
  { upstream := u, closeCalls := 0, notifications := 0 }

/-- Close: the deferred OnClose fires on every single call. -/
def closeConn (c : CloseNotifyingDuplexConn) : CloseNotifyingDuplexConn :=
  { c with closeCalls := c.closeCalls + 1, notifications := c.notifications + 1 }

def closeConnTimes (c : CloseNotifyingDuplexConn) : Nat → CloseNotifyingDuplexConn
  | 0 => c
  | k + 1 => closeConnTimes (closeConn c) k

theorem closeConnTimes_notifications (k : Nat) :
    ∀ c : CloseNotifyingDuplexConn,
      (closeConnTimes c k).notifications = c.notifications + k := by
  induction k with
  | zero => intro c; simp [closeConnTimes]
  | succ k ih =>
    intro c
    simp only [closeConnTimes]
    rw [ih (closeConn c)]
    simp [closeConn]
    omega

/-- C2 (amended): the wrapper emits ConnectionClosed(u) once per Close
call — none before the first Close, exactly one for a single Close, but
n notifications for n Close calls (there is no once-latch), so closing
the wrapped connection two or more times notifies the policy more than
once. -/
theorem closeNotifyingConn_one_notification_per_close (u : Upstream) (k : Nat) :
    (closeConnTimes (wrapConn u) k).notifications = k ∧
    (closeConnTimes (wrapConn u) k).closeCalls = (closeConnTimes (wrapConn u) k).notifications := by
  constructor
  · rw [closeConnTimes_notifications k (wrapConn u)]
    simp [wrapConn]
  · induction k with
    | zero => simp [closeConnTimes, wrapConn]
    | succ k ih =>
      have hgen : ∀ (j : Nat) (c : CloseNotifyingDuplexConn), c.closeCalls = c.notifications →
          (closeConnTimes c j).closeCalls = (closeConnTimes c j).notifications := by
        intro j
        induction j with
        | zero => intro c hc; simpa [closeConnTimes] using hc
        | succ j ihj =>
          intro c hc
          simp only [closeConnTimes]
          exact ihj (closeConn c) (by simp [closeConn, hc])
      exact hgen (k + 1) (wrapConn u) (by simp [wrapConn])

/-- C2 counterexample: calling Close twice on a freshly wrapped
connection delivers two ConnectionClosed notifications to the policy,
not exactly one as claimed. -/
theorem closeNotifyingConn_double_close_counterexample :
    (closeConnTimes (wrapConn (Upstream.mk "tcp" "a")) 2).notifications = 2 ∧
    (closeConnTimes (wrapConn (Upstream.mk "tcp" "a")) 2).notifications ≠ 1 := by
  decide

/-! ## Belief health tracker (src/lib/healthcheck/beliefhealthtracker.go)

Per-upstream state is guarded by its own mutex, so each report is one
atomic transition on that upstream's `upstreamBeliefState`. The
`failures`/`successes` counters are `uint8` in the source: they are
modelled as `Nat` with the wrap `% 256` made explicit at the one place
Go's fixed width can overflow, the `+ 1` increment. -/

inductive HealthBeliefState
  | HEALTHY
  | UNHEALTHY
deriving DecidableEq, Repr

inductive HealthCheckResult
  | CheckFail
  | CheckSuccess
deriving DecidableEq, Repr

structure HealthCfg where
  Prior : HealthBeliefState
  MinFailuresToInferUnhealthy : Nat
  MinSuccessesToInferHealthy : Nat
deriving DecidableEq, Repr

structure upstreamBeliefState where
  cfg : HealthCfg
  state : HealthBeliefState
  failures : Nat
  successes : Nat
deriving DecidableEq, Repr

/-- The source's local `min` helper on uint8. -/
def u8min (a b : Nat) : Nat := if a < b then a else b

/-- updateBeliefLocked, with the uint8 increment wrap explicit. -/
def updateBeliefLocked (s : upstreamBeliefState) : HealthCheckResult → upstreamBeliefState
  | .CheckSuccess =>
    let successes := u8min ((s.successes + 1) % 256) s.cfg.MinSuccessesToInferHealthy
    { s with
      failures := 0
      successes := successes
      state := if successes ≥ s.cfg.MinSuccessesToInferHealthy then .HEALTHY else s.state }
  | .CheckFail =>
    let failures := u8min ((s.failures + 1) % 256) s.cfg.MinFailuresToInferUnhealthy
    { s with
      failures := failures
      successes := 0
      state := if failures ≥ s.cfg.MinFailuresToInferUnhealthy then .UNHEALTHY else s.state }

/-- Modelled from the spec: the per-report transition rules of §4.F
verbatim — `failures ← 0; successes ← min(successes+1, threshold)` with
unbounded (saturating, never wrapping) arithmetic, and symmetrically for
CheckFail. Used only as the comparison point for the refinement part of
the claim. -/
def updateBeliefSpecRule (s : upstreamBeliefState) : HealthCheckResult → upstreamBeliefState
  | .CheckSuccess =>
    let successes := min (s.successes + 1) s.cfg.MinSuccessesToInferHealthy
    { s with
      failures := 0
      successes := successes
      state := if successes ≥ s.cfg.MinSuccessesToInferHealthy then .HEALTHY else s.state }
  | .CheckFail =>
    let failures := min (s.failures + 1) s.cfg.MinFailuresToInferUnhealthy
    { s with
      failures := failures
      successes := 0
      state := if failures ≥ s.cfg.MinFailuresToInferUnhealthy then .UNHEALTHY else s.state }

def applyReports (s : upstreamBeliefState) : List HealthCheckResult → upstreamBeliefState
  | [] => s
  | r :: rest => applyReports (updateBeliefLocked s r) rest

/-- Reachability invariant for a registered upstream's belief state: the
constructor's thresholds are valid uint8 values ≥ 1 (spec: both minima
are ≥ 1), the counters are clamped at their thresholds, and a counter at
its threshold can only have been set by the update that also set the
corresponding state. The initial state (Prior, 0, 0) satisfies this. -/
def beliefStateWF (s : upstreamBeliefState) : Prop :=
  1 ≤ s.cfg.MinFailuresToInferUnhealthy ∧ s.cfg.MinFailuresToInferUnhealthy ≤ 255 ∧
  1 ≤ s.cfg.MinSuccessesToInferHealthy ∧ s.cfg.MinSuccessesToInferHealthy ≤ 255 ∧
  s.failures ≤ s.cfg.MinFailuresToInferUnhealthy ∧
  s.successes ≤ s.cfg.MinSuccessesToInferHealthy ∧
  (s.cfg.MinFailuresToInferUnhealthy ≤ s.failures → s.state = .UNHEALTHY) ∧
  (s.cfg.MinSuccessesToInferHealthy ≤ s.successes → s.state = .HEALTHY)

theorem u8min_le_right (a b : Nat) : u8min a b ≤ b := by
  simp only [u8min]
  split_ifs with h
  · omega
  · omega

theorem u8min_eq_min (a b : Nat) : u8min a b = min a b := by
  simp only [u8min, Nat.min_def]
  split_ifs <;> omega

theorem updateBeliefLocked_WF {s : upstreamBeliefState} (hWF : beliefStateWF s)
    (r : HealthCheckResult) :
    beliefStateWF (updateBeliefLocked s r) ∧ (updateBeliefLocked s r).cfg = s.cfg := by
  obtain ⟨hf1, hf255, hs1, hs255, hfle, hsle, hfst, hsst⟩ := hWF
  cases r with
  | CheckSuccess =>
    refine ⟨⟨hf1, hf255, hs1, hs255, ?_, ?_, ?_, ?_⟩, rfl⟩
    · simp only [updateBeliefLocked]
      omega
    · simp only [updateBeliefLocked]
      exact u8min_le_right _ _
    · simp only [updateBeliefLocked]
      omega
    · simp only [updateBeliefLocked]
      intro h
      rw [if_pos h]
  | CheckFail =>
    refine ⟨⟨hf1, hf255, hs1, hs255, ?_, ?_, ?_, ?_⟩, rfl⟩
    · simp only [updateBeliefLocked]
      exact u8min_le_right _ _
    · simp only [updateBeliefLocked]
      omega
    · simp only [updateBeliefLocked]
      intro h
      rw [if_pos h]
    · simp only [updateBeliefLocked]
      omega

theorem checkFail_keeps_unhealthy {s : upstreamBeliefState}
    (h : s.state = .UNHEALTHY) :
    (updateBeliefLocked s .CheckFail).state = .UNHEALTHY := by
  simp only [updateBeliefLocked]
  split_ifs with hth
  · rfl
  · exact h

theorem checkSuccess_keeps_healthy {s : upstreamBeliefState}
    (h : s.state = .HEALTHY) :
    (updateBeliefLocked s .CheckSuccess).state = .HEALTHY := by
  simp only [updateBeliefLocked]
  split_ifs with hth
  · rfl
  · exact h

theorem applyFails_keeps_unhealthy :
    ∀ (k : Nat) (s : upstreamBeliefState), s.state = .UNHEALTHY →
      (applyReports s (List.replicate k .CheckFail)).state = .UNHEALTHY := by
  intro k
  induction k with
  | zero => intro s h; simpa [applyReports] using h
  | succ k ih =>
    intro s h
    simp only [List.replicate, applyReports]
    exact ih _ (checkFail_keeps_unhealthy h)

theorem applySuccesses_keeps_healthy :
    ∀ (k : Nat) (s : upstreamBeliefState), s.state = .HEALTHY →
      (applyReports s (List.replicate k .CheckSuccess)).state = .HEALTHY := by
  intro k
  induction k with
  | zero => intro s h; simpa [applyReports] using h
  | succ k ih =>
    intro s h
    simp only [List.replicate, applyReports]
    exact ih _ (checkSuccess_keeps_healthy h)

theorem applyFails_unhealthy_aux :
    ∀ (k : Nat) (s : upstreamBeliefState), beliefStateWF s →
      s.cfg.MinFailuresToInferUnhealthy ≤ k + s.failures →
      (applyReports s (List.replicate k .CheckFail)).state = .UNHEALTHY := by
  intro k
  induction k with
  | zero =>
    intro s hWF hk
    obtain ⟨_, _, _, _, _, _, hfst, _⟩ := hWF
    simpa [applyReports] using hfst (by omega)
  | succ k ih =>
    intro s hWF hk
    obtain ⟨hf1, hf255, hs1, hs255, hfle, hsle, hfst, hsst⟩ := hWF
    by_cases hreach : s.cfg.MinFailuresToInferUnhealthy ≤ s.failures
    · exact applyFails_keeps_unhealthy (k + 1) s (hfst hreach)
    · push_neg at hreach
      simp only [List.replicate, applyReports]
      have hnowrap : (s.failures + 1) % 256 = s.failures + 1 :=
        Nat.mod_eq_of_lt (by omega)
      have hstep : (updateBeliefLocked s .CheckFail).failures = s.failures + 1 := by
        simp only [updateBeliefLocked, hnowrap, u8min]
        split_ifs with h
        · rfl
        · omega
      have hWF' := (updateBeliefLocked_WF
        ⟨hf1, hf255, hs1, hs255, hfle, hsle, hfst, hsst⟩ .CheckFail).1
      have hcfg' := (updateBeliefLocked_WF
        ⟨hf1, hf255, hs1, hs255, hfle, hsle, hfst, hsst⟩ .CheckFail).2
      apply ih _ hWF'
      rw [hcfg', hstep]
      omega

theorem applySuccesses_healthy_aux :
    ∀ (k : Nat) (s : upstreamBeliefState), beliefStateWF s →
      s.cfg.MinSuccessesToInferHealthy ≤ k + s.successes →
      (applyReports s (List.replicate k .CheckSuccess)).state = .HEALTHY := by
  intro k
  induction k with
  | zero =>
    intro s hWF hk
    obtain ⟨_, _, _, _, _, _, _, hsst⟩ := hWF
    simpa [applyReports] using hsst (by omega)
  | succ k ih =>
    intro s hWF hk
    obtain ⟨hf1, hf255, hs1, hs255, hfle, hsle, hfst, hsst⟩ := hWF
    by_cases hreach : s.cfg.MinSuccessesToInferHealthy ≤ s.successes
    · exact applySuccesses_keeps_healthy (k + 1) s (hsst hreach)
    · push_neg at hreach
      simp only [List.replicate, applyReports]
      have hnowrap : (s.successes + 1) % 256 = s.successes + 1 :=
        Nat.mod_eq_of_lt (by omega)
      have hstep : (updateBeliefLocked s .CheckSuccess).successes = s.successes + 1 := by
        simp only [updateBeliefLocked, hnowrap, u8min]
        split_ifs with h
        · rfl
        · omega
      have hWF' := (updateBeliefLocked_WF
        ⟨hf1, hf255, hs1, hs255, hfle, hsle, hfst, hsst⟩ .CheckSuccess).1
      have hcfg' := (updateBeliefLocked_WF
        ⟨hf1, hf255, hs1, hs255, hfle, hsle, hfst, hsst⟩ .CheckSuccess).2
      apply ih _ hWF'
      rw [hcfg', hstep]
      omega

/-- C7 (amended): (i) the per-report transition of updateBeliefLocked
coincides with the spec's rules (zero the opposite counter, increment the
matching counter saturating at its threshold, move to HEALTHY/UNHEALTHY
at the threshold) whenever the incremented counter does not overflow
uint8, i.e. whenever it is at most 254 — at counter 255 with threshold
255 the uint8 increment wraps to 0 instead of saturating (see the
counterexample); (ii)/(iii) nevertheless, from every state satisfying the
reachability invariant, any k ≥ MinFailuresToInferUnhealthy consecutive
CheckFail reports leave the belief UNHEALTHY, and any k ≥
MinSuccessesToInferHealthy consecutive CheckSuccess reports leave it
HEALTHY. -/
theorem beliefTracker_transitions_and_convergence :
    (∀ (s : upstreamBeliefState) (r : HealthCheckResult),
      s.successes ≤ 254 → s.failures ≤ 254 →
      updateBeliefLocked s r = updateBeliefSpecRule s r) ∧
    (∀ (s : upstreamBeliefState) (k : Nat), beliefStateWF s →
      s.cfg.MinFailuresToInferUnhealthy ≤ k →
      (applyReports s (List.replicate k .CheckFail)).state = .UNHEALTHY) ∧
    (∀ (s : upstreamBeliefState) (k : Nat), beliefStateWF s →
      s.cfg.MinSuccessesToInferHealthy ≤ k →
      (applyReports s (List.replicate k .CheckSuccess)).state = .HEALTHY) := by
  refine ⟨?_, ?_, ?_⟩
  · intro s r hs hf
    cases r with
    | CheckSuccess =>
      have hnowrap : (s.successes + 1) % 256 = s.successes + 1 :=
        Nat.mod_eq_of_lt (by omega)
      simp only [updateBeliefLocked, updateBeliefSpecRule, hnowrap, u8min_eq_min]
    | CheckFail =>
      have hnowrap : (s.failures + 1) % 256 = s.failures + 1 :=
        Nat.mod_eq_of_lt (by omega)
      simp only [updateBeliefLocked, updateBeliefSpecRule, hnowrap, u8min_eq_min]
  · intro s k hWF hk
    exact applyFails_unhealthy_aux k s hWF (by omega)
  · intro s k hWF hk
    exact applySuccesses_healthy_aux k s hWF (by omega)

theorem beliefTracker_transitions_and_convergence_witness :
    beliefStateWF { cfg := { Prior := .HEALTHY, MinFailuresToInferUnhealthy := 3,
                             MinSuccessesToInferHealthy := 2 },
                    state := .HEALTHY, failures := 0, successes := 0 } ∧
    (applyReports
      { cfg := { Prior := .HEALTHY, MinFailuresToInferUnhealthy := 3,
                 MinSuccessesToInferHealthy := 2 },
        state := .HEALTHY, failures := 0, successes := 0 }
      (List.replicate 3 .CheckFail)).state = .UNHEALTHY :=
  ⟨by simp [beliefStateWF],
    beliefTracker_transitions_and_convergence.2.1
      { cfg := { Prior := .HEALTHY, MinFailuresToInferUnhealthy := 3,
                 MinSuccessesToInferHealthy := 2 },
        state := .HEALTHY, failures := 0, successes := 0 }
      3 (by simp [beliefStateWF]) (by decide)⟩

set_option maxRecDepth 8000 in
/-- C7 counterexample: with MinSuccessesToInferHealthy = 255, after 255
consecutive CheckSuccess reports from the initial state the successes
counter (a uint8) holds 255; the next CheckSuccess wraps the increment to
0 instead of saturating at the threshold as the claim's transition rule
requires (which would leave it at 255). -/
theorem beliefTracker_uint8_wrap_counterexample :
    (applyReports
        { cfg := { Prior := .UNHEALTHY, MinFailuresToInferUnhealthy := 1,
                   MinSuccessesToInferHealthy := 255 },
          state := .UNHEALTHY, failures := 0, successes := 0 }
        (List.replicate 255 .CheckSuccess)).successes = 255 ∧
    (applyReports
        { cfg := { Prior := .UNHEALTHY, MinFailuresToInferUnhealthy := 1,
                   MinSuccessesToInferHealthy := 255 },
          state := .UNHEALTHY, failures := 0, successes := 0 }
        (List.replicate 256 .CheckSuccess)).successes = 0 ∧
    (updateBeliefSpecRule
        (applyReports
          { cfg := { Prior := .UNHEALTHY, MinFailuresToInferUnhealthy := 1,
                     MinSuccessesToInferHealthy := 255 },
            state := .UNHEALTHY, failures := 0, successes := 0 }
          (List.replicate 255 .CheckSuccess))
        .CheckSuccess).successes = 255 := by
  decide

/-! ## BeliefHealthTracker (tracker level) -/

structure HealthReport where
  upstream : Upstream
  checkResult : HealthCheckResult
  symptom : Option GoErr
deriving DecidableEq, Repr

structure BeliefHealthTracker where
  beliefStateByUpstream : List (Upstream × upstreamBeliefState)
deriving DecidableEq, Repr

/-- UpdateBelief: nil reports are ignored before taking the state mutex. -/
def updateBelief (s : upstreamBeliefState) : Option HealthReport → upstreamBeliefState
  | none => s
  | some r => updateBeliefLocked s r.checkResult

/-- ReportUpstreamHealth: nil reports return immediately; reports for
upstreams that were not registered at construction are ignored. -/
def reportUpstreamHealth (hc : BeliefHealthTracker) (report : Option HealthReport) :
    BeliefHealthTracker :=
  match report with
  | none => hc
  | some r =>
    match goFind? hc.beliefStateByUpstream r.upstream with
    | none => hc
    | some bs =>
      { beliefStateByUpstream :=
          goInsert hc.beliefStateByUpstream r.upstream (updateBelief bs (some r)) }

/-- C10: calling ReportUpstreamHealth with a nil report is a safe no-op:
the nil guard returns before the map lookup that would dereference the
report, so the call returns normally with every upstream's belief state,
failure counter and success counter unchanged; the inner UpdateBelief has
the same guard. -/
theorem reportUpstreamHealth_nil_noop :
    (∀ hc : BeliefHealthTracker, reportUpstreamHealth hc none = hc) ∧
    (∀ s : upstreamBeliefState, updateBelief s none = s) :=
  ⟨fun _ => rfl, fun _ => rfl⟩

/-! ## Probe pool (src/unnamed/part_000, ProbePool)

Start/Stop run under the pool mutex; each call is one atomic transition.
Every call to Start runs `probeCtx, probeCancel := context.WithCancel(ctx)`
and stores `ap.done = probeCancel` BEFORE consulting the `started` guard;
contexts are modelled by generation numbers, `doneGen` being the
generation the stored cancel handle cancels and `workerGens` the
generation each launched probe worker's probeForever loop selects on.
A probe worker returns exactly when its context generation is cancelled;
Stop's `wg.Wait()` therefore unblocks iff every launched worker's
generation has been cancelled. -/

structure ProbePoolState where
  started : Bool
  stopped : Bool
  doneGen : Option Nat
  nextGen : Nat
  workerGens : List Nat
  cancelledGens : List Nat
deriving DecidableEq, Repr

def newProbePool : ProbePoolState :=
  { started := false, stopped := false, doneGen := none, nextGen := 0,
    workerGens := [], cancelledGens := [] }

/-- Start: allocate a fresh cancellable context and overwrite ap.done
with its cancel handle; if already started, return (leaving the
overwritten handle in place); otherwise mark started and launch one
worker per registered upstream, each bound to the fresh context. -/
def probePoolStart (numUpstreams : Nat) (s : ProbePoolState) : ProbePoolState :=
  let g := s.nextGen
  let s1 := { s with doneGen := some g, nextGen := g + 1 }
  if s1.started then s1
  else
    { s1 with
      started := true
      stopped := false
      workerGens := s1.workerGens ++ List.replicate numUpstreams g }

/-- Stop: no-op unless started and not yet stopped; otherwise cancel the
context the stored done handle belongs to and wait for the workers. -/
def probePoolStop (s : ProbePoolState) : ProbePoolState :=
  if ¬s.started ∨ s.stopped then s
  else
    { s with
      started := false
      stopped := true
      cancelledGens :=
        match s.doneGen with
        | some g => g :: s.cancelledGens
        | none => s.cancelledGens }

/-- Whether every launched probe worker's context has been cancelled —
exactly the condition under which Stop's wg.Wait() can return. -/
def probeWorkersQuiesce (s : ProbePoolState) : Bool :=
  s.workerGens.all (fun g => s.cancelledGens.contains g)

/-- C8: the claim says a second Start on a started pool changes nothing
observable, and a subsequent Stop still cancels the workers launched by
the first Start and unblocks. Evaluating the code at Start; Start; Stop
(two registered upstreams): the second Start overwrites the done handle
with the cancel function of a fresh context (generation 1) to which no
worker is bound, so Stop cancels generation 1 while both workers probe
under generation 0 — no worker quiesces and Stop's wg.Wait() blocks
forever. A single Start followed by Stop does quiesce. -/
theorem probePool_second_start_breaks_stop :
    (probeWorkersQuiesce (probePoolStop (probePoolStart 2 newProbePool)) = true) ∧
    (probePoolStart 2 (probePoolStart 2 newProbePool)).doneGen ≠
      (probePoolStart 2 newProbePool).doneGen ∧
    (probePoolStop (probePoolStart 2 (probePoolStart 2 newProbePool))).workerGens = [0, 0] ∧
    (probePoolStop (probePoolStart 2 (probePoolStart 2 newProbePool))).cancelledGens = [1] ∧
    probeWorkersQuiesce (probePoolStop (probePoolStart 2 (probePoolStart 2 newProbePool)))
      = false := by
  decide

/-! ## Forwarding engine (src/unnamed/part_001, idle-timeout version)

The engine borrows the two connections; `ConnEnd` names them. Each worker
is released one copy task per period; the collaborator behaviour of a
period (deadline-set outcomes, context cancellation, each worker's
io.Copy task result, CloseWrite outcomes) is a `PeriodInput`. The inner
select loop is nondeterministic in Go; the embedding fixes one admissible
schedule: context cancellation is observed first, then the
client→upstream worker's result, then the upstream→client worker's, and
— as in the source — the loop stops consuming results as soon as a
failure is recorded. -/

inductive ConnEnd
  | clientConn
  | upstreamConn
deriving DecidableEq, Repr

structure GoWorker where
  Src : ConnEnd
  Dst : ConnEnd
  SrcLabel : String
  DstLabel : String
  WorkRemaining : Bool
  TaskDone : Bool
deriving DecidableEq, Repr

def newWorker (srcLabel : String) (src : ConnEnd) (dstLabel : String) (dst : ConnEnd) :
    GoWorker :=
  { Src := src, Dst := dst, SrcLabel := srcLabel, DstLabel := dstLabel,
    WorkRemaining := true, TaskDone := false }

/-- start() launches
`go func(dst, src DuplexConn, in <-chan struct{}, out chan<- taskResult) { for range in { io.Copy(dst, src) } }(w.Src, w.Dst, w.In, w.Out)`:
the goroutine's `dst` parameter is bound positionally to the field
`w.Src` and its `src` parameter to `w.Dst`, so each released task runs
io.Copy reading from the `w.Dst` connection. -/
def workerCopyReadsFrom (w : GoWorker) : ConnEnd := w.Dst

/-- The connection start()'s io.Copy writes to (the goroutine's `dst`
parameter, bound to the field `w.Src`). -/
def workerCopyWritesTo (w : GoWorker) : ConnEnd := w.Src

/-- checkTaskResult calls `w.Dst.CloseWrite()` when the copy reported
end-of-stream. -/
def workerCloseWriteTarget (w : GoWorker) : ConnEnd := w.Dst

inductive CopyErrKind
  | deadlineExceeded
  | other (msg : String)
deriving DecidableEq, Repr

/-- io.Copy's (written, err) for one released task; err = none is EOF. -/
structure GoTaskResult where
  written : Nat
  err : Option CopyErrKind
deriving DecidableEq, Repr

/-- One recorded forwarding failure (a CopyFailure with its cause). -/
inductive ForwardFailure
  | closeWriteFailed (dstLabel : String) (cause : String)
  | copyError (srcLabel dstLabel : String) (cause : String)
  | setDeadlineFailed (which : String) (cause : String)
  | terminatedByContext
  | idleTimeout
deriving DecidableEq, Repr

/-- checkTaskResult: sets TaskDone; on err == nil (EOF) clears
WorkRemaining and close-writes w.Dst (outcome `cwErr` supplied by the
environment); deadline expiry is not reported as an error; any other
copy error is a failure. -/
def checkTaskResult (w : GoWorker) (result : GoTaskResult) (cwErr : Option String) :
    GoWorker × Option ForwardFailure :=
  let w1 := { w with TaskDone := true }
  match result.err with
  | none =>
    ({ w1 with WorkRemaining := false },
      match cwErr with
      | some e => some (.closeWriteFailed w1.DstLabel e)
      | none => none)
  | some .deadlineExceeded => (w1, none)
  | some (.other msg) => (w1, some (.copyError w1.SrcLabel w1.DstLabel msg))

/-- C1: the claim says that when a worker's copy reports end-of-stream it
declares no work remaining (true) and close-writes the connection it
writes to, i.e. the one opposite the connection whose read returned EOF.
Evaluating the code on the client→upstream worker (Src = clientConn,
Dst = upstreamConn): because start() binds its goroutine's (dst, src)
parameters to (w.Src, w.Dst), the copy reads from upstreamConn, and on
EOF checkTaskResult close-writes w.Dst = upstreamConn — the very
connection whose read returned EOF, not the opposite one it writes to. -/
theorem worker_eof_closes_the_eof_side :
    (checkTaskResult (newWorker "client" .clientConn "upstream" .upstreamConn)
        { written := 0, err := none } none).1.WorkRemaining = false ∧
    (checkTaskResult (newWorker "client" .clientConn "upstream" .upstreamConn)
        { written := 0, err := none } none).2 = none ∧
    workerCloseWriteTarget (newWorker "client" .clientConn "upstream" .upstreamConn)
      = workerCopyReadsFrom (newWorker "client" .clientConn "upstream" .upstreamConn) ∧
    workerCloseWriteTarget (newWorker "client" .clientConn "upstream" .upstreamConn)
      ≠ workerCopyWritesTo (newWorker "client" .clientConn "upstream" .upstreamConn) := by
  decide

structure PeriodInput where
  clientDeadlineErr : Option String
  upstreamDeadlineErr : Option String
  ctxDone : Bool
  cuResult : GoTaskResult
  ucResult : GoTaskResult
  cuCloseWriteErr : Option String
  ucCloseWriteErr : Option String
deriving DecidableEq, Repr

structure ForwardState where
  cu : GoWorker
  uc : GoWorker
  failures : List ForwardFailure
deriving DecidableEq, Repr

/-- The supervisor's worker pair: cu copies "client"→"upstream", uc
copies "upstream"→"client" (labels and Src/Dst as constructed in
Forward; see `workerCopyReadsFrom` for what io.Copy actually does). -/
def forwardInit : ForwardState :=
  { cu := newWorker "client" .clientConn "upstream" .upstreamConn
    uc := newWorker "upstream" .upstreamConn "client" .clientConn
    failures := [] }

/-- setConnDeadlines: failed deadline sets are recorded, client conn
first, then upstream conn. -/
def setConnDeadlinesFailures (cdErr udErr : Option String) : List ForwardFailure :=
  (match cdErr with
   | some e => [.setDeadlineFailed "client" e]
   | none => []) ++
  (match udErr with
   | some e => [.setDeadlineFailed "upstream" e]
   | none => [])

/-- One cycle of the outer period loop of Forward, from setting the
period deadlines through the inner result-collection loop to the
idle-timeout check. Returns the new state and whether the outer loop
continues to another period. -/
def stepPeriod (s : ForwardState) (inp : PeriodInput) : ForwardState × Bool :=
  let fails0 := s.failures ++
    setConnDeadlinesFailures inp.clientDeadlineErr inp.upstreamDeadlineErr
  if fails0 ≠ [] then ({ s with failures := fails0 }, false)
  else
    let cu0 := { s.cu with TaskDone := !s.cu.WorkRemaining }
    let uc0 := { s.uc with TaskDone := !s.uc.WorkRemaining }
    if inp.ctxDone ∧ (¬cu0.TaskDone ∨ ¬uc0.TaskDone) then
      ({ s with cu := cu0, uc := uc0, failures := fails0 ++ [.terminatedByContext] }, false)
    else
      let cuStep :=
        if ¬cu0.TaskDone then checkTaskResult cu0 inp.cuResult inp.cuCloseWriteErr
        else (cu0, none)
      let bytesCu := if ¬cu0.TaskDone then inp.cuResult.written else 0
      let ucRan := ¬uc0.TaskDone ∧ cuStep.2 = none
      let ucStep :=
        if ucRan then checkTaskResult uc0 inp.ucResult inp.ucCloseWriteErr
        else (uc0, none)
      let bytes := bytesCu + (if ucRan then inp.ucResult.written else 0)
      let failures1 := fails0 ++ (cuStep.2.toList ++ ucStep.2.toList)
      let s1 : ForwardState := { cu := cuStep.1, uc := ucStep.1, failures := failures1 }
      if failures1 ≠ [] ∨ (¬cuStep.1.WorkRemaining ∧ ¬ucStep.1.WorkRemaining) then
        (s1, false)
      else if bytes = 0 then
        ({ s1 with failures := failures1 ++ [.idleTimeout] }, false)
      else (s1, true)

/-- The outer loop `for cuWorker.WorkRemaining || ucWorker.WorkRemaining`.
`none` means the supplied script ended while the loop still wanted
another period. -/
def runForward : ForwardState → List PeriodInput → Option ForwardState
  | s, [] => if s.cu.WorkRemaining ∨ s.uc.WorkRemaining then none else some s
  | s, inp :: rest =>
    if s.cu.WorkRemaining ∨ s.uc.WorkRemaining then
      let r := stepPeriod s inp
      if r.2 then runForward r.1 rest else some r.1
    else some s

/-- After the loop: on failure the engine sets immediate deadlines on
both connections (whose own failures are appended by `fail`), then
returns the aggregate of all recorded failures; with no recorded failure
it returns nil. -/
def forwardResult (finalCDErr finalUDErr : Option String) (s : ForwardState) :
    Option (List ForwardFailure) :=
  if s.failures = [] then none
  else some (s.failures ++ setConnDeadlinesFailures finalCDErr finalUDErr)

/-- A period in which nothing moved: deadline sets succeed, the context
is live, and each worker that was released comes back with zero bytes
written and a deadline-exceeded copy error. -/
def idleInput (inp : PeriodInput) : Prop :=
  inp.clientDeadlineErr = none ∧ inp.upstreamDeadlineErr = none ∧
  inp.ctxDone = false ∧
  inp.cuResult = { written := 0, err := some .deadlineExceeded } ∧
  inp.ucResult = { written := 0, err := some .deadlineExceeded }

theorem stepPeriod_break {s : ForwardState} {inp : PeriodInput} {s' : ForwardState}
    (h : stepPeriod s inp = (s', false)) :
    s'.failures ≠ [] ∨ (s'.cu.WorkRemaining = false ∧ s'.uc.WorkRemaining = false) := by
  simp only [stepPeriod] at h
  split_ifs at h
  all_goals rw [Prod.mk.injEq] at h
  all_goals
    first
    | exact Bool.noConfusion h.2
    | (obtain ⟨hs, -⟩ := h
       subst hs
       simp_all [Bool.not_eq_true])

theorem runForward_complete :
    ∀ (script : List PeriodInput) (s s' : ForwardState),
      runForward s script = some s' →
      s'.failures ≠ [] ∨ (s'.cu.WorkRemaining = false ∧ s'.uc.WorkRemaining = false) := by
  intro script
  induction script with
  | nil =>
    intro s s' h
    simp only [runForward] at h
    split_ifs at h with hrem
    simp only [Option.some.injEq] at h
    subst h
    push_neg at hrem
    exact Or.inr ⟨by simpa using hrem.1, by simpa using hrem.2⟩
  | cons inp rest ih =>
    intro s s' h
    simp only [runForward] at h
    split_ifs at h with hrem hcont
    · exact ih _ _ h
    · simp only [Option.some.injEq] at h
      have hc' : (stepPeriod s inp).2 = false := by simpa using hcont
      have hstep : stepPeriod s inp = (s', false) := by
        rw [← h, ← hc']
      exact stepPeriod_break hstep
    · simp only [Option.some.injEq] at h
      subst h
      push_neg at hrem
      exact Or.inr ⟨by simpa using hrem.1, by simpa using hrem.2⟩

theorem stepPeriod_idle {s : ForwardState} {inp : PeriodInput}
    (hfail : s.failures = [])
    (hrem : s.cu.WorkRemaining = true ∨ s.uc.WorkRemaining = true)
    (hidle : idleInput inp) :
    stepPeriod s inp =
      ({ cu := { s.cu with TaskDone := true },
         uc := { s.uc with TaskDone := true },
         failures := [ForwardFailure.idleTimeout] }, false) := by
  obtain ⟨hc, hu, hctx, hcur, hucr⟩ := hidle
  cases hcuRem : s.cu.WorkRemaining <;> cases hucRem : s.uc.WorkRemaining
  · rw [hcuRem, hucRem] at hrem
    simp at hrem
  · simp [stepPeriod, checkTaskResult, setConnDeadlinesFailures,
      hfail, hc, hu, hctx, hcur, hucr, hcuRem, hucRem]
  · simp [stepPeriod, checkTaskResult, setConnDeadlinesFailures,
      hfail, hc, hu, hctx, hcur, hucr, hcuRem, hucRem]
  · simp [stepPeriod, checkTaskResult, setConnDeadlinesFailures,
      hfail, hc, hu, hctx, hcur, hucr, hcuRem, hucRem]

/-- C4: (i) whenever a period starts with no failure recorded and copy
work remaining, and that period is idle — deadline sets succeed, the
context stays live, and every released worker returns zero bytes with a
deadline-exceeded error, so zero bytes moved in either direction while
work remained and no other failure occurred — the engine records the
IdleTimeout failure, stops, and Forward returns a non-nil aggregate
error containing it; (ii) whenever the period loop completes with no
failure recorded, both workers have observed end-of-stream (no work
remaining on either side) and Forward returns Ok (nil error). -/
theorem forward_idle_timeout_and_ok :
    (∀ (s : ForwardState) (inp : PeriodInput) (rest : List PeriodInput)
        (fce fue : Option String),
      s.failures = [] →
      (s.cu.WorkRemaining = true ∨ s.uc.WorkRemaining = true) →
      idleInput inp →
      ∃ s', runForward s (inp :: rest) = some s' ∧
        ForwardFailure.idleTimeout ∈ s'.failures ∧
        ∃ fs, forwardResult fce fue s' = some fs ∧ ForwardFailure.idleTimeout ∈ fs) ∧
    (∀ (script : List PeriodInput) (s' : ForwardState) (fce fue : Option String),
      runForward forwardInit script = some s' →
      s'.failures = [] →
      forwardResult fce fue s' = none ∧
      s'.cu.WorkRemaining = false ∧ s'.uc.WorkRemaining = false) := by
  constructor
  · intro s inp rest fce fue hfail hrem hidle
    have hstep := stepPeriod_idle hfail hrem hidle
    refine ⟨{ cu := { s.cu with TaskDone := true },
              uc := { s.uc with TaskDone := true },
              failures := [ForwardFailure.idleTimeout] }, ?_, ?_, ?_⟩
    · rcases hrem with hr | hr <;> simp [runForward, hstep, hr]
    · simp
    · refine ⟨[ForwardFailure.idleTimeout] ++ setConnDeadlinesFailures fce fue, ?_, ?_⟩
      · simp [forwardResult]
      · simp
  · intro script s' fce fue hrun hfail
    have hboth := runForward_complete script forwardInit s' hrun
    rcases hboth with hne | hboth
    · exact absurd hfail hne
    · exact ⟨by simp [forwardResult, hfail], hboth.1, hboth.2⟩

theorem forward_idle_timeout_and_ok_witness :
    (∃ s', runForward forwardInit
        [{ clientDeadlineErr := none, upstreamDeadlineErr := none, ctxDone := false,
           cuResult := { written := 0, err := some .deadlineExceeded },
           ucResult := { written := 0, err := some .deadlineExceeded },
           cuCloseWriteErr := none, ucCloseWriteErr := none }]
        = some s' ∧
      ForwardFailure.idleTimeout ∈ s'.failures ∧
      ∃ fs, forwardResult none none s' = some fs ∧ ForwardFailure.idleTimeout ∈ fs) ∧
    forwardResult none none
      { cu := { Src := .clientConn, Dst := .upstreamConn, SrcLabel := "client",
                DstLabel := "upstream", WorkRemaining := false, TaskDone := true },
        uc := { Src := .upstreamConn, Dst := .clientConn, SrcLabel := "upstream",
                DstLabel := "client", WorkRemaining := false, TaskDone := true },
        failures := [] } = none :=
  ⟨forward_idle_timeout_and_ok.1 forwardInit _ [] none none rfl (Or.inl rfl)
      ⟨rfl, rfl, rfl, rfl, rfl⟩,
    (forward_idle_timeout_and_ok.2
      [{ clientDeadlineErr := none, upstreamDeadlineErr := none, ctxDone := false,
         cuResult := { written := 5, err := none },
         ucResult := { written := 3, err := none },
         cuCloseWriteErr := none, ucCloseWriteErr := none }]
      { cu := { Src := .clientConn, Dst := .upstreamConn, SrcLabel := "client",
                DstLabel := "upstream", WorkRemaining := false, TaskDone := true },
        uc := { Src := .upstreamConn, Dst := .clientConn, SrcLabel := "upstream",
                DstLabel := "client", WorkRemaining := false, TaskDone := true },
        failures := [] } none none (by decide) rfl).1⟩

end Tcplb
